import Mathlib

/-!
Verification of the markdown tokenizer core: shallow embedding of the
code (text) construct, the heading (setext) construct and its resolver,
and the string content type dispatch, together with theorems checking
the specification's statements about them.

Bytes are modelled as natural numbers (a backtick is 96, a line feed is
10, an ampersand is 38, a backslash is 92).  The event log is a list of
events; the edit map accumulates `add` operations as a list.
-/

/-- Token types used by the embedded constructs (a subset of the full
closed enumeration; only the labels the embedded code mentions). -/
inductive Token
  | codeText
  | codeTextData
  | codeTextSequence
  | lineEnding
  | characterEscape
  | characterReference
  | data
  | paragraph
  | headingSetext
  | headingSetextText
  | headingSetextUnderline
  | spaceOrTab
  deriving DecidableEq, Repr

/-- Whether an event marks the start or the end of a token. -/
inductive EventType
  | enter
  | exit
  deriving DecidableEq, Repr

/-- An event record: kind, token type and point.  The point is reduced
to the byte index; the `link` field of the source is not used by any of
the embedded code and is omitted. -/
structure Event where
  event_type : EventType
  token_type : Token
  point : Nat
  deriving DecidableEq, Repr

/-- State names used by the embedded constructs (a subset of the full
`Name` enumeration of the source). -/
inductive Name
  | codeTextStart
  | codeTextSequenceOpen
  | codeTextBetween
  | codeTextData
  | codeTextSequenceClose
  | stringBefore
  | stringBeforeData
  | characterReferenceStart
  | characterEscapeStart
  | dataStart
  deriving DecidableEq, Repr

/-- The verdict a state function returns.  `attempt` reifies the
attempt controller call `tokenizer.attempt(name, ok, nok)` (modelled
from the spec: the controller snapshots, runs the named construct, and
continues at the first state on success, the second on failure). -/
inductive State
  | next (name : Name)
  | retry (name : Name)
  | ok
  | nok
  | attempt (name : Name) (onOk : State) (onNok : State)
  deriving DecidableEq, Repr

/-- Tokenizer state for the byte-driven constructs (code (text) and the
string content type).  `remaining` holds the bytes after the current
one; `consumed` counts calls to `consume` (the observable the state
contract speaks about); `codeTextEnabled` is
`parse_state.constructs.code_text`. -/
structure Tokenizer where
  current : Option Nat
  previous : Option Nat
  remaining : List Nat
  events : List Event
  size : Nat
  size_b : Nat
  codeTextEnabled : Bool
  point : Nat
  consumed : Nat
  deriving DecidableEq, Repr

/-- Consume the current symbolic byte: it becomes `previous`, the head
of `remaining` (or end of input) becomes `current`. -/
def Tokenizer.consume (t : Tokenizer) : Tokenizer :=
  { t with
    previous := t.current
    current := t.remaining.head?
    remaining := t.remaining.tail
    point := t.point + 1
    consumed := t.consumed + 1 }

/-- Append an Enter event at the current point. -/
def Tokenizer.enter (t : Tokenizer) (tok : Token) : Tokenizer :=
  { t with events := t.events ++ [{ event_type := EventType.enter, token_type := tok, point := t.point }] }

/-- Append an Exit event at the current point. -/
def Tokenizer.exit (t : Tokenizer) (tok : Token) : Tokenizer :=
  { t with events := t.events ++ [{ event_type := EventType.exit, token_type := tok, point := t.point }] }

/-- Rewrite the token type of the event at an index (the source writes
`events[i].token_type = tok`; the index is always in range where the
embedded code uses this). -/
def setTokenTypeAt (events : List Event) (i : Nat) (tok : Token) : List Event :=
  match events.get? i with
  | some e => events.set i { e with token_type := tok }
  | none => events

/-- Check of `!events.is_empty() && events[events.len() - 1].token_type
== Token::CharacterEscape` from the source of `code_text::start`. -/
def lastEventIsCharacterEscape (events : List Event) : Bool :=
  match events.getLast? with
  | some e => e.token_type = Token.characterEscape
  | none => false

namespace CodeText

/-- Start of code (text): only at a backtick, when the construct is
enabled, and when the previous byte is not a backtick unless the most
recent event is a character escape. -/
def start (t : Tokenizer) : State × Tokenizer :=
  match t.current with
  | some 96 =>
    if t.codeTextEnabled = true ∧
        (t.previous ≠ some 96 ∨ lastEventIsCharacterEscape t.events = true) then
      let t1 := (t.enter Token.codeText).enter Token.codeTextSequence
      (State.retry Name.codeTextSequenceOpen, t1)
    else (State.nok, t)
  | _ => (State.nok, t)

/-- In the opening sequence: count backticks into `size`. -/
def sequence_open (t : Tokenizer) : State × Tokenizer :=
  match t.current with
  | some 96 =>
    (State.next Name.codeTextSequenceOpen, ({ t with size := t.size + 1 }).consume)
  | _ =>
    (State.retry Name.codeTextBetween, t.exit Token.codeTextSequence)

/-- Between something and something else. -/
def between (t : Tokenizer) : State × Tokenizer :=
  match t.current with
  | none => (State.nok, { t with size := 0 })
  | some 10 =>
    let t1 := ((t.enter Token.lineEnding).consume).exit Token.lineEnding
    (State.next Name.codeTextBetween, t1)
  | some 96 =>
    (State.retry Name.codeTextSequenceClose, t.enter Token.codeTextSequence)
  | some _ =>
    (State.retry Name.codeTextData, t.enter Token.codeTextData)

/-- In data: consume until end of input, a line feed, or a backtick. -/
def data (t : Tokenizer) : State × Tokenizer :=
  match t.current with
  | none => (State.retry Name.codeTextBetween, t.exit Token.codeTextData)
  | some 10 => (State.retry Name.codeTextBetween, t.exit Token.codeTextData)
  | some 96 => (State.retry Name.codeTextBetween, t.exit Token.codeTextData)
  | some _ => (State.next Name.codeTextData, t.consume)

/-- In the closing sequence: count backticks into `size_b`; on leaving
the run compare with `size`. -/
def sequence_close (t : Tokenizer) : State × Tokenizer :=
  match t.current with
  | some 96 =>
    (State.next Name.codeTextSequenceClose, ({ t with size_b := t.size_b + 1 }).consume)
  | _ =>
    if t.size = t.size_b then
      let t1 := (t.exit Token.codeTextSequence).exit Token.codeText
      (State.ok, { t1 with size := 0, size_b := 0 })
    else
      let index := t.events.length
      let t1 := t.exit Token.codeTextSequence
      let t2 := { t1 with
        events := setTokenTypeAt (setTokenTypeAt t1.events (index - 1) Token.codeTextData)
          index Token.codeTextData }
      (State.retry Name.codeTextBetween, { t2 with size_b := 0 })

/-- Dispatch table restricted to the code (text) states (other
constructs are outside the embedded fragment). -/
def step (name : Name) (t : Tokenizer) : State × Tokenizer :=
  match name with
  | Name.codeTextStart => start t
  | Name.codeTextSequenceOpen => sequence_open t
  | Name.codeTextBetween => between t
  | Name.codeTextData => data t
  | Name.codeTextSequenceClose => sequence_close t
  | _ => (State.nok, t)

/-- Outcome of a finished construct run. -/
inductive Verdict
  | ok
  | nok
  deriving DecidableEq, Repr

/-- The trampoline restricted to the code (text) construct: drive the
current state until a terminal verdict, with fuel for termination.
Code (text) states never return an attempt. -/
def run : Nat → Name → Tokenizer → Option (Verdict × Tokenizer)
  | 0, _, _ => none
  | n + 1, name, t =>
    match step name t with
    | (State.next name2, t2) => run n name2 t2
    | (State.retry name2, t2) => run n name2 t2
    | (State.ok, t2) => some (Verdict.ok, t2)
    | (State.nok, t2) => some (Verdict.nok, t2)
    | (State.attempt _ _ _, _) => none

end CodeText

/-- Symbolic codes of the character-driven tokenizer version used by
the heading (setext) construct: end of input, the CRLF atom, a virtual
space from tab expansion, or an ordinary character. -/
inductive Code
  | none
  | carriageReturnLineFeed
  | virtualSpace
  | char (c : Char)
  deriving DecidableEq, Repr

/-- Names of registered resolvers (kept as an enumeration instead of
strings). -/
inductive ResolverName
  | whitespace
  | headingSetext
  deriving DecidableEq, Repr

/-- Tab size: 4 columns (fixed constant of the parser). -/
def TAB_SIZE : Nat := 4

/-- The value `usize::MAX` as a natural number. -/
def usizeMax : Nat := 2 ^ 64 - 1

/-- Modelled from the spec: the skip utility (`src/util/skip.rs` is not
under `src/`).  Starting at an index, move backwards while the event's
token type is in the given list; return the index of the last event
that is not a line ending and not one of the listed kinds, stopping at
zero. -/
def skipOptBack (events : List Event) (kinds : List Token) : Nat → Nat
  | 0 => 0
  | i + 1 =>
    match events.get? (i + 1) with
    | Option.none => i + 1
    | Option.some e =>
      if e.token_type ∈ kinds then skipOptBack events kinds i else i + 1

/-- The `paragraph_before` check of `heading_setext::start`: the event
log is non-empty and the last event that is not a line ending and not
space-or-tab has the paragraph token type. -/
def paragraphBefore (events : List Event) : Bool :=
  !events.isEmpty &&
    (match events.get? (skipOptBack events [Token.lineEnding, Token.spaceOrTab] (events.length - 1)) with
     | Option.some e => e.token_type = Token.paragraph
     | Option.none => false)

/-- Whether a code counts as one column of space or tab (virtual spaces
complete a tab expansion and count as columns). -/
def isSpaceOrTabCode : Code → Bool
  | Code.char c => c = ' ' || c = '\t'
  | Code.virtualSpace => true
  | _ => false

/-- Modelled from the spec: the `space_or_tab_min_max` partial
(`src/construct/partial_space_or_tab.rs` is not under `src/`) consumes
at most `mx` leading space or tab columns and returns how many were
consumed together with the remaining codes.  The space-or-tab token
events it emits are not inspected by any embedded claim and are
omitted. -/
def takeSpaceOrTab (mx : Nat) : List Code → Nat × List Code
  | [] => (0, [])
  | c :: rest =>
    if 0 < mx ∧ isSpaceOrTabCode c = true then
      let p := takeSpaceOrTab (mx - 1) rest
      (p.1 + 1, p.2)
    else (0, c :: rest)

/-- Number of leading space or tab columns of a code list. -/
def countLeadingSpaceOrTab : List Code → Nat
  | [] => 0
  | c :: rest => if isSpaceOrTabCode c = true then countLeadingSpaceOrTab rest + 1 else 0

/-- The current code of a stream: its head, or end of input when the
stream is exhausted. -/
def currentCode : List Code → Code
  | [] => Code.none
  | c :: _ => c

namespace HeadingSetext

/-- Kind of underline. -/
inductive Kind
  | dash
  | equalsTo
  deriving DecidableEq, Repr

/-- Turn the kind into a character. -/
def Kind.asChar : Kind → Char
  | Kind.dash => '-'
  | Kind.equalsTo => '='

/-- Turn a character into a kind.  The source panics on any character
other than a dash or an equals sign; it is only called under a guard
that rules those out, and this embedding is only applied there. -/
def Kind.fromChar (c : Char) : Kind :=
  if c = '-' then Kind.dash else Kind.equalsTo

/-- Verdict of the character-driven state functions.  The source's
`State::Fn` continuations are composed directly, and the back-count of
`State::Ok(0)` is omitted (it is always zero here). -/
inductive HState
  | ok
  | nok
  deriving DecidableEq, Repr

/-- Tokenizer state for the heading (setext) construct.
`headingSetext` and `codeIndented` are the corresponding fields of
`parse_state.constructs`. -/
structure HTokenizer where
  events : List Event
  lazy : Bool
  interrupt : Bool
  headingSetext : Bool
  codeIndented : Bool
  resolvers : List ResolverName
  point : Nat
  deriving DecidableEq, Repr

/-- Append an Enter event at the current point. -/
def HTokenizer.enterTok (t : HTokenizer) (tok : Token) : HTokenizer :=
  { t with events := t.events ++ [{ event_type := EventType.enter, token_type := tok, point := t.point }] }

/-- Append an Exit event at the current point. -/
def HTokenizer.exitTok (t : HTokenizer) (tok : Token) : HTokenizer :=
  { t with events := t.events ++ [{ event_type := EventType.exit, token_type := tok, point := t.point }] }

/-- Modelled from the spec: the resolver registry keeps an ordered list
of registered resolver names; registering adds a name not already
present. -/
def registerResolver (t : HTokenizer) (name : ResolverName) : HTokenizer :=
  if name ∈ t.resolvers then t else { t with resolvers := t.resolvers ++ [name] }

/-- After an underline sequence, after optional whitespace: accept only
at end of input or a line ending; on success clear the interrupt flag
and register the setext resolver. -/
def after (t : HTokenizer) (code : Code) : HState × HTokenizer :=
  match code with
  | Code.none =>
    (HState.ok, registerResolver { t with interrupt := false } ResolverName.headingSetext)
  | Code.carriageReturnLineFeed =>
    (HState.ok, registerResolver { t with interrupt := false } ResolverName.headingSetext)
  | Code.char c =>
    if c = '\n' ∨ c = '\r' then
      (HState.ok, registerResolver { t with interrupt := false } ResolverName.headingSetext)
    else (HState.nok, t)
  | _ => (HState.nok, t)

/-- Leaving the underline run: exit the underline token, then
`attempt_opt(space_or_tab(), after)` drops optional trailing
space or tab and continues at `after`. -/
def insideExit (t : HTokenizer) (codes : List Code) : HState × HTokenizer :=
  let t1 := t.exitTok Token.headingSetextUnderline
  let p := takeSpaceOrTab usizeMax codes
  after { t1 with point := t1.point + p.1 } (currentCode p.2)

/-- In an underline sequence: consume runs of the kind's character
only. -/
def inside (t : HTokenizer) (kind : Kind) : List Code → HState × HTokenizer
  | Code.char c :: rest =>
    if c = kind.asChar then inside { t with point := t.point + 1 } kind rest
    else insideExit t (Code.char c :: rest)
  | codes => insideExit t codes

/-- After optional whitespace, presumably an underline: require a dash
or an equals sign, record the kind, enter the underline token. -/
def before (t : HTokenizer) (codes : List Code) : HState × HTokenizer :=
  match currentCode codes with
  | Code.char c =>
    if c = '-' ∨ c = '=' then
      inside (t.enterTok Token.headingSetextUnderline) (Kind.fromChar c) codes
    else (HState.nok, t)
  | _ => (HState.nok, t)

/-- At a line ending, presumably an underline: require a paragraph
before, no lazy line, and the construct enabled; then
`go(space_or_tab_min_max(0, max), before)` consumes up to `max` leading
space or tab columns, where `max` is `TAB_SIZE - 1` when the
code (indented) construct is enabled and `usize::MAX` otherwise. -/
def start (t : HTokenizer) (codes : List Code) : HState × HTokenizer :=
  if paragraphBefore t.events = true ∧ t.lazy = false ∧ t.headingSetext = true then
    before
      { t with
        point := t.point +
          (takeSpaceOrTab (if t.codeIndented = true then TAB_SIZE - 1 else usizeMax) codes).1 }
      (takeSpaceOrTab (if t.codeIndented = true then TAB_SIZE - 1 else usizeMax) codes).2
  else (HState.nok, t)

/-- The edit map: accumulated `add(position, remove_count, inserts)`
operations (modelled from the spec; `src/util/edit_map.rs` is not under
`src/`). -/
structure EditMap where
  adds : List (Nat × Nat × List Event)
  deriving DecidableEq, Repr

/-- Record one edit operation. -/
def EditMap.add (map : EditMap) (index remove : Nat) (inserts : List Event) : EditMap :=
  { adds := map.adds ++ [(index, remove, inserts)] }

/-- A default event used for the unreachable out-of-range arms of the
resolver (the tracked indices always point into the event list when the
resolver runs). -/
def defaultEvent : Event :=
  { event_type := EventType.enter, token_type := Token.headingSetext, point := 0 }

/-- One walk of the setext resolver, carrying the indices of the most
recent paragraph Enter and Exit.  At an Exit of an underline the source
unwraps both trackers — a missing tracker is the panic, modelled as
`none`. -/
def resolveAux : Nat → Nat → List Event → EditMap → Option Nat → Option Nat →
    Option (List Event × EditMap)
  | 0, _, events, map, _, _ => some (events, map)
  | n + 1, index, events, map, pe, px =>
    match events.get? index with
    | Option.none => some (events, map)
    | Option.some e =>
      if e.event_type = EventType.enter then
        resolveAux n (index + 1) events map
          (if e.token_type = Token.paragraph then some index else pe) px
      else if e.token_type = Token.paragraph then
        resolveAux n (index + 1) events map pe (some index)
      else if e.token_type = Token.headingSetextUnderline then
        match pe, px with
        | some enter, some exitIndex =>
          let events1 := setTokenTypeAt events enter Token.headingSetextText
          let events2 := setTokenTypeAt events1 exitIndex Token.headingSetextText
          let headingEnter :=
            { (events2.get? enter).getD defaultEvent with token_type := Token.headingSetext }
          let headingExit :=
            { (events2.get? index).getD defaultEvent with token_type := Token.headingSetext }
          let map1 := (map.add enter 0 [headingEnter]).add (index + 1) 0 [headingExit]
          resolveAux n (index + 1) events2 map1 none none
        | _, _ => none
      else
        resolveAux n (index + 1) events map pe px

/-- Resolve heading (setext): walk the whole event list. -/
def resolve (events : List Event) : Option (List Event × EditMap) :=
  resolveAux events.length 0 events { adds := [] } none none

end HeadingSetext

namespace StringContent

/-- Before string: dispatch on the current byte.  An ampersand attempts
the character reference construct, a backslash attempts the character
escape construct, each falling back to data; anything else retries at
data; end of input succeeds. -/
def before (t : Tokenizer) : State :=
  match t.current with
  | Option.none => State.ok
  | Option.some 38 =>
    State.attempt Name.characterReferenceStart
      (State.next Name.stringBefore) (State.next Name.stringBeforeData)
  | Option.some 92 =>
    State.attempt Name.characterEscapeStart
      (State.next Name.stringBefore) (State.next Name.stringBeforeData)
  | Option.some _ => State.retry Name.stringBeforeData

/-- The dispatch table the specification describes for the string
content type, written from the spec's words: character references at an
ampersand, character escapes at a backslash, each falling back to
generic data, every other byte routed to generic data, success at end
of input. -/
def stringDispatchSpec : Option Nat → State
  | Option.none => State.ok
  | Option.some b =>
    if b = 38 then
      State.attempt Name.characterReferenceStart
        (State.next Name.stringBefore) (State.next Name.stringBeforeData)
    else if b = 92 then
      State.attempt Name.characterEscapeStart
        (State.next Name.stringBefore) (State.next Name.stringBeforeData)
    else State.retry Name.stringBeforeData

end StringContent

/-- How many bytes a verdict consumed inside the state function that
returned it, according to the state contract: one for `Next`, zero for
everything else. -/
def consumeDelta : State → Nat
  | State.next _ => 1
  | _ => 0

namespace CodeText

/-- Invariant on the scratch counters at each code (text) state:
`size_b` is zero except inside the closing sequence, and both counters
are zero on entry at `start`.  States of other constructs are not
reachable from the code (text) entry. -/
def sizesInv : Name → Tokenizer → Prop
  | Name.codeTextStart, t => t.size = 0 ∧ t.size_b = 0
  | Name.codeTextSequenceOpen, t => t.size_b = 0
  | Name.codeTextBetween, t => t.size_b = 0
  | Name.codeTextData, t => t.size_b = 0
  | Name.codeTextSequenceClose, _ => True
  | _, _ => False

/-- Tokenizer positioned at the start of the input `` `a` `` (bytes
96, 97, 96) with the construct enabled and the scratch counters
zeroed. -/
def exampleTokenizer : Tokenizer :=
  { current := some 96, previous := none, remaining := [97, 96], events := [],
    size := 0, size_b := 0, codeTextEnabled := true, point := 0, consumed := 0 }

/-- The terminal state of running code (text) on `` `a` `` (the run
succeeds within the given fuel). -/
def exampleFinal : Verdict × Tokenizer :=
  (run 12 Name.codeTextStart exampleTokenizer).getD (Verdict.nok, exampleTokenizer)

/-- A tokenizer whose previous byte is a backtick while the current one
also is, with no character escape event: the start guard rejects it. -/
def exampleTokenizerTickRun : Tokenizer :=
  { exampleTokenizer with previous := some 96 }

/-- A tokenizer stopped right after an attempted closing sequence of
length one whose opening sequence also had length one (the current
byte, 97, is no longer a backtick). -/
def exampleCloseEq : Tokenizer :=
  { current := some 97, previous := some 96, remaining := [],
    events := [{ event_type := EventType.enter, token_type := Token.codeText, point := 0 },
               { event_type := EventType.enter, token_type := Token.codeTextSequence, point := 2 }],
    size := 1, size_b := 1, codeTextEnabled := true, point := 3, consumed := 3 }

/-- Like `exampleCloseEq` but with an opening sequence of length two,
so the attempted closer does not match. -/
def exampleCloseNe : Tokenizer :=
  { exampleCloseEq with size := 2 }

end CodeText

namespace HeadingSetext

/-- The specification's form of the guard of `start`, written from the
claim's words: the last event that is not a line ending and not
space-or-tab is an Exit event of a paragraph. -/
def claimedParagraphExitBefore (events : List Event) : Bool :=
  !events.isEmpty &&
    (match events.get? (skipOptBack events [Token.lineEnding, Token.spaceOrTab] (events.length - 1)) with
     | Option.some e => e.event_type = EventType.exit && e.token_type = Token.paragraph
     | Option.none => false)

/-- The resolver's precondition, written from the claim's words as a
walk carrying two flags: every Exit of an underline must be preceded by
a paragraph Enter event and a paragraph Exit event that no earlier
underline has already consumed. -/
def preAux : Nat → Nat → List Event → Bool → Bool → Bool
  | 0, _, _, _, _ => true
  | n + 1, index, events, hasEnter, hasExit =>
    match events.get? index with
    | Option.none => true
    | Option.some e =>
      if e.event_type = EventType.enter then
        preAux n (index + 1) events
          (if e.token_type = Token.paragraph then true else hasEnter) hasExit
      else if e.token_type = Token.paragraph then
        preAux n (index + 1) events hasEnter true
      else if e.token_type = Token.headingSetextUnderline then
        hasEnter && hasExit && preAux n (index + 1) events false false
      else
        preAux n (index + 1) events hasEnter hasExit

/-- Every underline Exit in the list is preceded by an unconsumed
paragraph Enter and Exit (the resolver's precondition). -/
def setextUnderlinesMatched (events : List Event) : Bool :=
  preAux events.length 0 events false false

/-- Event list for a well-formed setext heading: a paragraph followed
by an underline. -/
def exampleEvents : List Event :=
  [{ event_type := EventType.enter, token_type := Token.paragraph, point := 0 },
   { event_type := EventType.exit, token_type := Token.paragraph, point := 5 },
   { event_type := EventType.enter, token_type := Token.headingSetextUnderline, point := 6 },
   { event_type := EventType.exit, token_type := Token.headingSetextUnderline, point := 11 }]

/-- A tokenizer whose event log ends in a paragraph Enter with no Exit:
the source guard still sees the paragraph token type. -/
def exampleEnterOnly : HTokenizer :=
  { events := [{ event_type := EventType.enter, token_type := Token.paragraph, point := 0 }],
    lazy := false, interrupt := false, headingSetext := true, codeIndented := true,
    resolvers := [], point := 0 }

/-- A tokenizer after a complete paragraph, with code (indented)
disabled. -/
def exampleNoIndent : HTokenizer :=
  { events := [{ event_type := EventType.enter, token_type := Token.paragraph, point := 0 },
               { event_type := EventType.exit, token_type := Token.paragraph, point := 5 }],
    lazy := false, interrupt := false, headingSetext := true, codeIndented := false,
    resolvers := [], point := 6 }

/-- The same tokenizer with code (indented) enabled. -/
def exampleWithIndent : HTokenizer :=
  { exampleNoIndent with codeIndented := true }

/-- The same tokenizer on a lazy line. -/
def exampleLazy : HTokenizer :=
  { exampleNoIndent with lazy := true }

/-- An underline line preceded by four columns of spaces. -/
def exampleIndentedCodes : List Code :=
  [Code.char ' ', Code.char ' ', Code.char ' ', Code.char ' ', Code.char '-']

/-- A plain underline line. -/
def exampleDashCodes : List Code :=
  [Code.char '-']

/-- A tokenizer with nothing particular, used to exercise `after`. -/
def exampleAfterTokenizer : HTokenizer :=
  { events := [], lazy := false, interrupt := true, headingSetext := true,
    codeIndented := true, resolvers := [], point := 0 }

end HeadingSetext

section Theorems

/-- Registering a resolver keeps the interrupt flag and makes the name
a member of the resolver list. -/
theorem registerResolver_spec (t : HeadingSetext.HTokenizer) (name : ResolverName) :
    (HeadingSetext.registerResolver t name).interrupt = t.interrupt ∧
      name ∈ (HeadingSetext.registerResolver t name).resolvers := by
  unfold HeadingSetext.registerResolver
  split
  · exact ⟨rfl, by assumption⟩
  · exact ⟨rfl, by simp⟩

/-- Claim C9: the string content dispatch attempts the character
reference construct at an ampersand and the character escape construct
at a backslash, each falling back to data; any other byte goes straight
to data, and end of input returns Ok. -/
theorem string_before_dispatch (t : Tokenizer) :
    StringContent.before t = StringContent.stringDispatchSpec t.current := by
  cases h : t.current with
  | none => simp [StringContent.before, StringContent.stringDispatchSpec, h]
  | some b =>
    simp only [StringContent.before, StringContent.stringDispatchSpec, h]
    split <;> simp_all

/-- Claim C8: every code (text) state function consumes exactly one
byte before returning Next and none before returning Retry, Ok or Nok,
for every tokenizer state. -/
theorem code_text_state_contract (t : Tokenizer) :
    (CodeText.start t).2.consumed = t.consumed + consumeDelta (CodeText.start t).1 ∧
    (CodeText.sequence_open t).2.consumed = t.consumed + consumeDelta (CodeText.sequence_open t).1 ∧
    (CodeText.between t).2.consumed = t.consumed + consumeDelta (CodeText.between t).1 ∧
    (CodeText.data t).2.consumed = t.consumed + consumeDelta (CodeText.data t).1 ∧
    (CodeText.sequence_close t).2.consumed = t.consumed + consumeDelta (CodeText.sequence_close t).1 := by
  refine ⟨?_, ?_, ?_, ?_, ?_⟩
  · unfold CodeText.start
    split
    · split <;> rfl
    · rfl
  · unfold CodeText.sequence_open
    split <;> rfl
  · unfold CodeText.between
    split <;> rfl
  · unfold CodeText.data
    split <;> rfl
  · unfold CodeText.sequence_close
    split
    · rfl
    · split <;> rfl

/-- Claim C2: the code (text) start state succeeds only at a backtick
whose predecessor is not a backtick unless the most recent event is a
character escape; whenever that condition fails the state returns Nok
unchanged. -/
theorem code_text_start_only_if (t : Tokenizer) :
    ((CodeText.start t).1 ≠ State.nok →
      t.current = some 96 ∧
        (t.previous ≠ some 96 ∨ lastEventIsCharacterEscape t.events = true)) ∧
    (¬(t.current = some 96 ∧
        (t.previous ≠ some 96 ∨ lastEventIsCharacterEscape t.events = true)) →
      CodeText.start t = (State.nok, t)) := by
  constructor
  · intro hne
    unfold CodeText.start at hne
    split at hne
    · next heq =>
      split at hne
      · next hg => exact ⟨heq, hg.2⟩
      · simp at hne
    · simp at hne
  · intro hnot
    unfold CodeText.start
    split
    · next heq =>
      split
      · next hg => exact absurd ⟨heq, hg.2⟩ hnot
      · rfl
    · rfl

/-- Witness for claim C2: at the start of `` `a` `` the guard holds and
the state proceeds, while after a backtick with no escape event the
state returns Nok unchanged. -/
theorem code_text_start_only_if_witness :
    (CodeText.exampleTokenizer.current = some 96 ∧
      (CodeText.exampleTokenizer.previous ≠ some 96 ∨
        lastEventIsCharacterEscape CodeText.exampleTokenizer.events = true)) ∧
    CodeText.start CodeText.exampleTokenizerTickRun = (State.nok, CodeText.exampleTokenizerTickRun) :=
  ⟨(code_text_start_only_if CodeText.exampleTokenizer).1 (by decide),
   (code_text_start_only_if CodeText.exampleTokenizerTickRun).2 (by decide)⟩

/-- Claim C6: the setext `after` state returns Ok exactly at end of
input or a line ending; on success it clears the interrupt flag and
registers the setext resolver, and on any other symbol it returns Nok
unchanged. -/
theorem heading_setext_after_spec (t : HeadingSetext.HTokenizer) (code : Code) :
    ((HeadingSetext.after t code).1 = HeadingSetext.HState.ok ↔
      (code = Code.none ∨ code = Code.carriageReturnLineFeed ∨
        code = Code.char '\n' ∨ code = Code.char '\r')) ∧
    ((code = Code.none ∨ code = Code.carriageReturnLineFeed ∨
        code = Code.char '\n' ∨ code = Code.char '\r') →
      (HeadingSetext.after t code).2.interrupt = false ∧
        ResolverName.headingSetext ∈ (HeadingSetext.after t code).2.resolvers) ∧
    (¬(code = Code.none ∨ code = Code.carriageReturnLineFeed ∨
        code = Code.char '\n' ∨ code = Code.char '\r') →
      HeadingSetext.after t code = (HeadingSetext.HState.nok, t)) := by
  have hreg := registerResolver_spec { t with interrupt := false } ResolverName.headingSetext
  cases code with
  | none =>
    exact ⟨by simp [HeadingSetext.after], fun _ => ⟨hreg.1, hreg.2⟩, by simp⟩
  | carriageReturnLineFeed =>
    exact ⟨by simp [HeadingSetext.after], fun _ => ⟨hreg.1, hreg.2⟩, by simp⟩
  | virtualSpace =>
    exact ⟨by simp [HeadingSetext.after], by simp, fun _ => rfl⟩
  | char c =>
    by_cases hc : c = '\n' ∨ c = '\r'
    · refine ⟨by simp [HeadingSetext.after, hc], fun _ => ?_, by simp [hc]⟩
      simpa [HeadingSetext.after, hc] using ⟨hreg.1, hreg.2⟩
    · refine ⟨by simp [HeadingSetext.after, hc], ?_, fun _ => by simp [HeadingSetext.after, hc]⟩
      intro habs
      simp at habs
      exact absurd habs hc

/-- Witness for claim C6: at end of input `after` succeeds, clears the
interrupt flag and registers the resolver; at the letter x it returns
Nok unchanged. -/
theorem heading_setext_after_spec_witness :
    (HeadingSetext.after HeadingSetext.exampleAfterTokenizer Code.none).2.interrupt = false ∧
    ResolverName.headingSetext ∈
      (HeadingSetext.after HeadingSetext.exampleAfterTokenizer Code.none).2.resolvers ∧
    HeadingSetext.after HeadingSetext.exampleAfterTokenizer (Code.char 'x') =
      (HeadingSetext.HState.nok, HeadingSetext.exampleAfterTokenizer) :=
  ⟨((heading_setext_after_spec HeadingSetext.exampleAfterTokenizer Code.none).2.1 (Or.inl rfl)).1,
   ((heading_setext_after_spec HeadingSetext.exampleAfterTokenizer Code.none).2.1 (Or.inl rfl)).2,
   (heading_setext_after_spec HeadingSetext.exampleAfterTokenizer (Code.char 'x')).2.2 (by decide)⟩

/-- Reading at the length of the left part of an append hits the head
of the right part. -/
theorem listGetAppendMid {α : Type} (es : List α) (e : α) (l : List α) :
    (es ++ e :: l).get? es.length = some e := by
  induction es with
  | nil => rfl
  | cons a as ih => simpa using ih

/-- Setting at the length of the left part of an append replaces the
head of the right part. -/
theorem listSetAppendMid {α : Type} (es : List α) (e x : α) (l : List α) :
    (es ++ e :: l).set es.length x = es ++ x :: l := by
  induction es with
  | nil => rfl
  | cons a as ih => simp [List.set_cons_succ, ih]

/-- Rewriting a token type at the length of the left part of an append
rewrites the head of the right part. -/
theorem setTokenTypeAtAppendMid (es : List Event) (e : Event) (l : List Event) (tok : Token) :
    setTokenTypeAt (es ++ e :: l) es.length tok =
      es ++ { e with token_type := tok } :: l := by
  unfold setTokenTypeAt
  rw [listGetAppendMid]
  show (es ++ e :: l).set es.length { e with token_type := tok } = _
  rw [listSetAppendMid]

/-- Claim C1: in `sequence_close`, once the byte is no longer a
backtick, equal run lengths exit the sequence and code-text tokens and
zero both counters with verdict Ok; unequal run lengths rewrite the
attempted closing sequence's Enter and Exit to code-text-data, zero the
closing counter, and retry at `between` without consuming. -/
theorem code_text_sequence_close_spec (t : Tokenizer) (es : List Event) (e : Event)
    (hcur : t.current ≠ some 96)
    (hev : t.events = es ++ [e])
    (hee : e.event_type = EventType.enter)
    (het : e.token_type = Token.codeTextSequence) :
    (t.size = t.size_b →
      CodeText.sequence_close t =
        (State.ok,
          { t with
            events := es ++ [e, ⟨EventType.exit, Token.codeTextSequence, t.point⟩,
              ⟨EventType.exit, Token.codeText, t.point⟩],
            size := 0, size_b := 0 })) ∧
    (t.size ≠ t.size_b →
      CodeText.sequence_close t =
        (State.retry Name.codeTextBetween,
          { t with
            events := es ++ [{ e with token_type := Token.codeTextData },
              ⟨EventType.exit, Token.codeTextData, t.point⟩],
            size_b := 0 })) := by
  constructor
  · intro hsz
    unfold CodeText.sequence_close
    split
    · next heq => exact absurd heq hcur
    · rw [if_pos hsz]
      simp [Tokenizer.exit, hev]
  · intro hsz
    unfold CodeText.sequence_close
    split
    · next heq => exact absurd heq hcur
    · rw [if_neg hsz]
      have hlen : t.events.length = es.length + 1 := by simp [hev]
      have hstep1 : (t.exit Token.codeTextSequence).events =
          es ++ e :: [⟨EventType.exit, Token.codeTextSequence, t.point⟩] := by
        simp [Tokenizer.exit, hev]
      have hset1 : setTokenTypeAt (t.exit Token.codeTextSequence).events
          (t.events.length - 1) Token.codeTextData =
          es ++ { e with token_type := Token.codeTextData } ::
            [⟨EventType.exit, Token.codeTextSequence, t.point⟩] := by
        rw [hstep1, hlen, Nat.add_sub_cancel, setTokenTypeAtAppendMid]
      have hset2 : setTokenTypeAt (es ++ { e with token_type := Token.codeTextData } ::
            [⟨EventType.exit, Token.codeTextSequence, t.point⟩])
          t.events.length Token.codeTextData =
          es ++ [{ e with token_type := Token.codeTextData },
            ⟨EventType.exit, Token.codeTextData, t.point⟩] := by
        have hra : es ++ { e with token_type := Token.codeTextData } ::
            [⟨EventType.exit, Token.codeTextSequence, t.point⟩] =
            (es ++ [{ e with token_type := Token.codeTextData }]) ++
              ⟨EventType.exit, Token.codeTextSequence, t.point⟩ :: ([] : List Event) := by
          simp
        have hlen2 : t.events.length =
            (es ++ [{ e with token_type := Token.codeTextData }]).length := by
          simp [hlen]
        rw [hra, hlen2, setTokenTypeAtAppendMid]
        simp
      -- assemble the resulting tokenizer
      simp only [hset1, hset2]
      rfl

/-- Witness for claim C1: at an attempted closer of length one, the
equal case (opening length one) succeeds with zeroed counters, and the
unequal case (opening length two) rewrites the two sequence events to
data and retries. -/
theorem code_text_sequence_close_spec_witness :
    CodeText.sequence_close CodeText.exampleCloseEq =
      (State.ok,
        { CodeText.exampleCloseEq with
          events := [{ event_type := EventType.enter, token_type := Token.codeText, point := 0 },
            { event_type := EventType.enter, token_type := Token.codeTextSequence, point := 2 },
            { event_type := EventType.exit, token_type := Token.codeTextSequence, point := 3 },
            { event_type := EventType.exit, token_type := Token.codeText, point := 3 }],
          size := 0, size_b := 0 }) ∧
    CodeText.sequence_close CodeText.exampleCloseNe =
      (State.retry Name.codeTextBetween,
        { CodeText.exampleCloseNe with
          events := [{ event_type := EventType.enter, token_type := Token.codeText, point := 0 },
            { event_type := EventType.enter, token_type := Token.codeTextData, point := 2 },
            { event_type := EventType.exit, token_type := Token.codeTextData, point := 3 }],
          size_b := 0 }) :=
  ⟨(code_text_sequence_close_spec CodeText.exampleCloseEq
      [{ event_type := EventType.enter, token_type := Token.codeText, point := 0 }]
      { event_type := EventType.enter, token_type := Token.codeTextSequence, point := 2 }
      (by decide) rfl rfl rfl).1 rfl,
   (code_text_sequence_close_spec CodeText.exampleCloseNe
      [{ event_type := EventType.enter, token_type := Token.codeText, point := 0 }]
      { event_type := EventType.enter, token_type := Token.codeTextSequence, point := 2 }
      (by decide) rfl rfl rfl).2 (by decide)⟩

/-- What one step of the machine must guarantee: the invariant at the
state it hands over to, and zeroed counters at a terminal verdict. -/
def stepGuarantee (p : State × Tokenizer) : Prop :=
  match p.1 with
  | State.next n2 => CodeText.sizesInv n2 p.2
  | State.retry n2 => CodeText.sizesInv n2 p.2
  | State.ok => p.2.size = 0 ∧ p.2.size_b = 0
  | State.nok => p.2.size = 0 ∧ p.2.size_b = 0
  | State.attempt _ _ _ => True

/-- One step of the code (text) machine preserves the counter
invariant, and every terminal verdict leaves both counters at zero. -/
theorem codeTextStepInv (name : Name) (t : Tokenizer) (h : CodeText.sizesInv name t) :
    stepGuarantee (CodeText.step name t) := by
  cases name with
  | codeTextStart =>
    show stepGuarantee (CodeText.start t)
    unfold CodeText.start
    split
    · split
      · exact h.2
      · exact h
    · exact h
  | codeTextSequenceOpen =>
    show stepGuarantee (CodeText.sequence_open t)
    unfold CodeText.sequence_open
    split
    · exact h
    · exact h
  | codeTextBetween =>
    show stepGuarantee (CodeText.between t)
    unfold CodeText.between
    split
    · exact ⟨rfl, h⟩
    · exact h
    · trivial
    · exact h
  | codeTextData =>
    show stepGuarantee (CodeText.data t)
    unfold CodeText.data
    split
    · exact h
    · exact h
    · exact h
    · exact h
  | codeTextSequenceClose =>
    show stepGuarantee (CodeText.sequence_close t)
    unfold CodeText.sequence_close
    split
    · trivial
    · split
      · exact ⟨rfl, rfl⟩
      · exact rfl
  | stringBefore => exact False.elim h
  | stringBeforeData => exact False.elim h
  | characterReferenceStart => exact False.elim h
  | characterEscapeStart => exact False.elim h
  | dataStart => exact False.elim h

/-- A finished run of the code (text) machine from any state satisfying
the counter invariant ends with both counters at zero. -/
theorem codeTextRunSizes (n : Nat) :
    ∀ (name : Name) (t : Tokenizer) (r : CodeText.Verdict) (t2 : Tokenizer),
      CodeText.sizesInv name t → CodeText.run n name t = some (r, t2) →
        t2.size = 0 ∧ t2.size_b = 0 := by
  induction n with
  | zero =>
    intro name t r t2 _ hrun
    simp [CodeText.run] at hrun
  | succ n ih =>
    intro name t r t2 hinv hrun
    rw [CodeText.run] at hrun
    have hguar := codeTextStepInv name t hinv
    rcases hstep : CodeText.step name t with ⟨s, t3⟩
    rw [hstep] at hrun hguar
    cases s with
    | next n2 => exact ih n2 t3 r t2 hguar hrun
    | retry n2 => exact ih n2 t3 r t2 hguar hrun
    | ok =>
      simp only [Option.some.injEq, Prod.mk.injEq] at hrun
      rw [← hrun.2]
      exact hguar
    | nok =>
      simp only [Option.some.injEq, Prod.mk.injEq] at hrun
      rw [← hrun.2]
      exact hguar
    | attempt a b c => cases hrun

/-- Claim C7: a terminal verdict of the code (text) construct (Ok from
`sequence_close` or Nok from `between` at end of input are the only
terminal exits past `start`) leaves both scratch counters at zero, for
every run begun with zeroed counters. -/
theorem code_text_sizes_reset (fuel : Nat) (t : Tokenizer) (r : CodeText.Verdict)
    (t2 : Tokenizer) (h1 : t.size = 0) (h2 : t.size_b = 0)
    (hrun : CodeText.run fuel Name.codeTextStart t = some (r, t2)) :
    t2.size = 0 ∧ t2.size_b = 0 :=
  codeTextRunSizes fuel Name.codeTextStart t r t2 ⟨h1, h2⟩ hrun

/-- Witness for claim C7: running the construct on `` `a` `` terminates
and leaves both counters at zero. -/
theorem code_text_sizes_reset_witness :
    CodeText.exampleFinal.2.size = 0 ∧ CodeText.exampleFinal.2.size_b = 0 :=
  code_text_sizes_reset 12 CodeText.exampleTokenizer CodeText.exampleFinal.1
    CodeText.exampleFinal.2 rfl rfl rfl

/-- Claim C4 (amended): the setext `start` state proceeds past Nok only
when the last event that is not a line ending and not space-or-tab has
the paragraph token type (the source does not inspect whether it is an
Enter or an Exit), the line is not lazy, and the construct is enabled;
when the guard fails it returns Nok unchanged. -/
theorem heading_setext_start_guard_amended (t : HeadingSetext.HTokenizer) (codes : List Code) :
    ((HeadingSetext.start t codes).1 ≠ HeadingSetext.HState.nok →
      paragraphBefore t.events = true ∧ t.lazy = false ∧ t.headingSetext = true) ∧
    (¬(paragraphBefore t.events = true ∧ t.lazy = false ∧ t.headingSetext = true) →
      HeadingSetext.start t codes = (HeadingSetext.HState.nok, t)) := by
  constructor
  · intro hne
    unfold HeadingSetext.start at hne
    split at hne
    · next hg => exact hg
    · simp at hne
  · intro hnot
    unfold HeadingSetext.start
    split
    · next hg => exact absurd hg hnot
    · rfl

/-- Counterexample for claim C4 as stated: on an event log holding only
an Enter of a paragraph, `start` proceeds past Nok although the last
non-skipped event is not an Exit of a paragraph. -/
theorem heading_setext_start_exit_counterexample :
    (HeadingSetext.start HeadingSetext.exampleEnterOnly HeadingSetext.exampleDashCodes).1 ≠
        HeadingSetext.HState.nok ∧
      HeadingSetext.exampleEnterOnly.lazy = false ∧
      HeadingSetext.exampleEnterOnly.headingSetext = true ∧
      HeadingSetext.claimedParagraphExitBefore HeadingSetext.exampleEnterOnly.events = false := by
  decide

/-- Witness for the amended claim C4: after a complete paragraph the
guard holds and `start` proceeds, and on a lazy line `start` returns
Nok unchanged. -/
theorem heading_setext_start_guard_amended_witness :
    (paragraphBefore HeadingSetext.exampleNoIndent.events = true ∧
      HeadingSetext.exampleNoIndent.lazy = false ∧
      HeadingSetext.exampleNoIndent.headingSetext = true) ∧
    HeadingSetext.start HeadingSetext.exampleLazy HeadingSetext.exampleDashCodes =
      (HeadingSetext.HState.nok, HeadingSetext.exampleLazy) :=
  ⟨(heading_setext_start_guard_amended HeadingSetext.exampleNoIndent
      HeadingSetext.exampleDashCodes).1 (by decide),
   (heading_setext_start_guard_amended HeadingSetext.exampleLazy
      HeadingSetext.exampleDashCodes).2 (by decide)⟩

/-- When more leading whitespace remains than the bound allows, the
code after the bounded whitespace skip still starts with space or
tab. -/
theorem takeSpaceOrTab_stops (codes : List Code) :
    ∀ mx, mx < countLeadingSpaceOrTab codes →
      isSpaceOrTabCode (currentCode (takeSpaceOrTab mx codes).2) = true := by
  induction codes with
  | nil =>
    intro mx hlt
    simp [countLeadingSpaceOrTab] at hlt
  | cons c rest ih =>
    intro mx hlt
    by_cases hc : isSpaceOrTabCode c = true
    · rcases Nat.eq_zero_or_pos mx with h0 | hpos
      · subst h0
        simp [takeSpaceOrTab, currentCode, hc]
      · have hrest : mx - 1 < countLeadingSpaceOrTab rest := by
          rw [countLeadingSpaceOrTab, if_pos hc] at hlt
          omega
        rw [takeSpaceOrTab, if_pos ⟨hpos, hc⟩]
        exact ih (mx - 1) hrest
    · rw [countLeadingSpaceOrTab, if_neg hc] at hlt
      omega

/-- At a leading space or tab, `before` fails. -/
theorem before_space_nok (t : HeadingSetext.HTokenizer) (codes : List Code)
    (h : isSpaceOrTabCode (currentCode codes) = true) :
    HeadingSetext.before t codes = (HeadingSetext.HState.nok, t) := by
  unfold HeadingSetext.before
  split
  · next c heq =>
    rw [heq] at h
    have hnd : ¬(c = '-' ∨ c = '=') := by
      simp [isSpaceOrTabCode] at h
      rcases h with h | h <;> subst h <;> decide
    rw [if_neg hnd]
  · rfl

/-- Claim C5 (amended): when the code (indented) construct is enabled,
an underline preceded by tab-size or more columns of leading whitespace
is rejected by setext `start`; with code (indented) disabled the bound
is `usize::MAX` and no such limit applies. -/
theorem heading_setext_start_indent_amended (t : HeadingSetext.HTokenizer) (codes : List Code)
    (hind : t.codeIndented = true) (hcount : 4 ≤ countLeadingSpaceOrTab codes) :
    (HeadingSetext.start t codes).1 = HeadingSetext.HState.nok := by
  unfold HeadingSetext.start
  rw [if_pos hind]
  split
  · have h3 : TAB_SIZE - 1 = 3 := rfl
    have hstop := takeSpaceOrTab_stops codes (TAB_SIZE - 1) (by rw [h3]; omega)
    rw [before_space_nok _ _ hstop]
  · rfl

/-- Counterexample for claim C5 as stated: with code (indented)
disabled, an underline preceded by four columns of spaces is accepted
by `start`, so the tab-size bound does depend on which other constructs
are enabled. -/
theorem heading_setext_start_indent_counterexample :
    (HeadingSetext.start HeadingSetext.exampleNoIndent HeadingSetext.exampleIndentedCodes).1 =
        HeadingSetext.HState.ok ∧
      4 ≤ countLeadingSpaceOrTab HeadingSetext.exampleIndentedCodes ∧
      HeadingSetext.exampleNoIndent.headingSetext = true ∧
      HeadingSetext.exampleNoIndent.lazy = false := by
  decide

/-- Witness for the amended claim C5: with code (indented) enabled the
same four-space line is rejected. -/
theorem heading_setext_start_indent_amended_witness :
    (HeadingSetext.start HeadingSetext.exampleWithIndent HeadingSetext.exampleIndentedCodes).1 =
      HeadingSetext.HState.nok :=
  heading_setext_start_indent_amended HeadingSetext.exampleWithIndent
    HeadingSetext.exampleIndentedCodes rfl (by decide)

/-- Rewriting a token type at an index holding a known event is a
plain `set`. -/
theorem setTokenTypeAtOfGet (events : List Event) (i : Nat) (e : Event) (tok : Token)
    (h : events.get? i = some e) :
    setTokenTypeAt events i tok = events.set i { e with token_type := tok } := by
  unfold setTokenTypeAt
  rw [h]

/-- Claim C3: at an Exit of a heading-setext-underline, with the most
recent paragraph Enter and Exit tracked at earlier positions, the
resolver rewrites both tracked events to heading-setext-text, records
an edit inserting a synthesized heading-setext Enter at the paragraph's
original Enter position and one inserting a synthesized heading-setext
Exit immediately after the underline's Exit, and continues with both
trackers cleared. -/
theorem heading_setext_resolve_underline_step
    (n index a b : Nat) (events : List Event) (map : HeadingSetext.EditMap)
    (ea eb eu : Event)
    (hu : events.get? index = some eu)
    (hue : eu.event_type = EventType.exit)
    (hut : eu.token_type = Token.headingSetextUnderline)
    (ha : events.get? a = some ea)
    (hae : ea.event_type = EventType.enter)
    (hat : ea.token_type = Token.paragraph)
    (hb : events.get? b = some eb)
    (hbe : eb.event_type = EventType.exit)
    (hbt : eb.token_type = Token.paragraph)
    (hab : a < b) (hbi : b < index) :
    HeadingSetext.resolveAux (n + 1) index events map (some a) (some b) =
      HeadingSetext.resolveAux n (index + 1)
        ((events.set a { ea with token_type := Token.headingSetextText }).set b
          { eb with token_type := Token.headingSetextText })
        ((map.add a 0 [{ ea with token_type := Token.headingSetext }]).add (index + 1) 0
          [{ eu with token_type := Token.headingSetext }])
        none none := by
  have hab2 : a ≠ b := Nat.ne_of_lt hab
  have hal : a < events.length := by
    by_contra hcon
    rw [List.get?_eq_none.mpr (Nat.le_of_not_lt hcon)] at ha
    cases ha
  have hs1 : setTokenTypeAt events a Token.headingSetextText =
      events.set a { ea with token_type := Token.headingSetextText } :=
    setTokenTypeAtOfGet events a ea Token.headingSetextText ha
  have hgetb : (events.set a { ea with token_type := Token.headingSetextText }).get? b =
      some eb := by
    rw [List.get?_set_ne _ _ hab2, hb]
  have hs2 : setTokenTypeAt
      (events.set a { ea with token_type := Token.headingSetextText }) b
      Token.headingSetextText =
      (events.set a { ea with token_type := Token.headingSetextText }).set b
        { eb with token_type := Token.headingSetextText } :=
    setTokenTypeAtOfGet _ b eb Token.headingSetextText hgetb
  have hgE : ((events.set a { ea with token_type := Token.headingSetextText }).set b
      { eb with token_type := Token.headingSetextText }).get? a =
      some { ea with token_type := Token.headingSetextText } := by
    rw [List.get?_set_ne _ _ (Ne.symm hab2), List.get?_set_eq_of_lt _ hal]
  have hgX : ((events.set a { ea with token_type := Token.headingSetextText }).set b
      { eb with token_type := Token.headingSetextText }).get? index =
      some eu := by
    rw [List.get?_set_ne _ _ (Nat.ne_of_lt hbi), List.get?_set_ne _ _
      (Nat.ne_of_lt (Nat.lt_trans hab hbi)), hu]
  simp only [HeadingSetext.resolveAux, hu, hue, hut, hs1, hs2, hgE, hgX, Option.getD]
  simp

/-- Witness for claim C3: the resolver step applied to a concrete
paragraph-then-underline event list. -/
theorem heading_setext_resolve_underline_step_witness :
    HeadingSetext.resolveAux 1 3 HeadingSetext.exampleEvents { adds := [] } (some 0) (some 1) =
      HeadingSetext.resolveAux 0 4
        ((HeadingSetext.exampleEvents.set 0
          ⟨EventType.enter, Token.headingSetextText, 0⟩).set 1
          ⟨EventType.exit, Token.headingSetextText, 5⟩)
        ((HeadingSetext.EditMap.add { adds := [] } 0 0
            [⟨EventType.enter, Token.headingSetext, 0⟩]).add 4 0
          [⟨EventType.exit, Token.headingSetext, 11⟩])
        none none :=
  heading_setext_resolve_underline_step 0 3 0 1 HeadingSetext.exampleEvents { adds := [] }
    ⟨EventType.enter, Token.paragraph, 0⟩ ⟨EventType.exit, Token.paragraph, 5⟩
    ⟨EventType.exit, Token.headingSetextUnderline, 11⟩
    rfl rfl rfl rfl rfl rfl rfl rfl rfl (by decide) (by decide)

/-- Rewriting a token type at one index leaves every other index
unchanged. -/
theorem setTokenTypeAtGetNe (events : List Event) (i : Nat) (tok : Token) (j : Nat)
    (h : i ≠ j) :
    (setTokenTypeAt events i tok).get? j = events.get? j := by
  unfold setTokenTypeAt
  cases hg : events.get? i with
  | none => rfl
  | some e => rw [List.get?_set_ne _ _ h]

/-- The precondition walk reads only events at or after its index. -/
theorem preAuxCongr (n : Nat) :
    ∀ (index : Nat) (e1 e2 : List Event) (hE hX : Bool),
      (∀ j, index ≤ j → e1.get? j = e2.get? j) →
      HeadingSetext.preAux n index e1 hE hX = HeadingSetext.preAux n index e2 hE hX := by
  induction n with
  | zero => intros; rfl
  | succ n ih =>
    intro index e1 e2 hE hX hagree
    have h0 := hagree index (Nat.le_refl index)
    have hagree2 : ∀ j, index + 1 ≤ j → e1.get? j = e2.get? j :=
      fun j hj => hagree j (Nat.le_of_succ_le hj)
    rcases hget : e1.get? index with _ | e
    · have h2 : e2.get? index = Option.none := by rw [← h0, hget]
      simp only [HeadingSetext.preAux, hget, h2]
    · have h2 : e2.get? index = some e := by rw [← h0, hget]
      simp only [HeadingSetext.preAux, hget, h2]
      by_cases hc1 : e.event_type = EventType.enter
      · simp only [if_pos hc1]
        exact ih (index + 1) e1 e2 _ _ hagree2
      · simp only [if_neg hc1]
        by_cases hc2 : e.token_type = Token.paragraph
        · simp only [if_pos hc2]
          exact ih (index + 1) e1 e2 _ _ hagree2
        · simp only [if_neg hc2]
          by_cases hc3 : e.token_type = Token.headingSetextUnderline
          · simp only [if_pos hc3]
            rw [ih (index + 1) e1 e2 false false hagree2]
          · simp only [if_neg hc3]
            exact ih (index + 1) e1 e2 _ _ hagree2

/-- The resolver walk succeeds exactly when the precondition walk
accepts, provided the trackers point before the current index. -/
theorem resolveAuxIsSome (n : Nat) :
    ∀ (index : Nat) (events : List Event) (map : HeadingSetext.EditMap)
      (pe px : Option Nat),
      (∀ x, pe = some x → x < index) → (∀ x, px = some x → x < index) →
      (HeadingSetext.resolveAux n index events map pe px).isSome =
        HeadingSetext.preAux n index events pe.isSome px.isSome := by
  induction n with
  | zero => intros; rfl
  | succ n ih =>
    intro index events map pe px hpe hpx
    rcases hget : events.get? index with _ | e
    · simp only [HeadingSetext.resolveAux, HeadingSetext.preAux, hget]
      rfl
    · simp only [HeadingSetext.resolveAux, HeadingSetext.preAux, hget]
      by_cases hc1 : e.event_type = EventType.enter
      · simp only [if_pos hc1]
        by_cases hp : e.token_type = Token.paragraph
        · simp only [if_pos hp]
          have hrec := ih (index + 1) events map (some index) px
            (fun x hx => by cases hx; omega)
            (fun x hx => Nat.lt_succ_of_lt (hpx x hx))
          simpa using hrec
        · simp only [if_neg hp]
          exact ih (index + 1) events map pe px
            (fun x hx => Nat.lt_succ_of_lt (hpe x hx))
            (fun x hx => Nat.lt_succ_of_lt (hpx x hx))
      · simp only [if_neg hc1]
        by_cases hc2 : e.token_type = Token.paragraph
        · simp only [if_pos hc2]
          have hrec := ih (index + 1) events map pe (some index)
            (fun x hx => Nat.lt_succ_of_lt (hpe x hx))
            (fun x hx => by cases hx; omega)
          simpa using hrec
        · simp only [if_neg hc2]
          by_cases hc3 : e.token_type = Token.headingSetextUnderline
          · simp only [if_pos hc3]
            rcases pe with _ | av
            · simp
            · rcases px with _ | bv
              · simp
              · have hav : av < index := hpe av rfl
                have hbv : bv < index := hpx bv rfl
                have hagree : ∀ j, index + 1 ≤ j →
                    (setTokenTypeAt (setTokenTypeAt events av Token.headingSetextText) bv
                      Token.headingSetextText).get? j = events.get? j := by
                  intro j hj
                  rw [setTokenTypeAtGetNe _ _ _ _ (by omega),
                    setTokenTypeAtGetNe _ _ _ _ (by omega)]
                rw [ih (index + 1) _ _ none none
                  (fun x hx => by cases hx) (fun x hx => by cases hx)]
                simp only [Option.isSome_none, Option.isSome_some]
                rw [preAuxCongr n (index + 1) _ events false false hagree]
                simp
          · simp only [if_neg hc3]
            exact ih (index + 1) events map pe px
              (fun x hx => Nat.lt_succ_of_lt (hpe x hx))
              (fun x hx => Nat.lt_succ_of_lt (hpx x hx))

/-- Claim C10: the setext resolver completes without panicking exactly
on event lists where every underline Exit is preceded by an unconsumed
paragraph Enter and Exit; a missing tracker at an underline Exit is the
unwrap panic, modelled as the walk returning nothing. -/
theorem heading_setext_resolve_panic_iff (events : List Event) :
    (HeadingSetext.resolve events).isSome =
      HeadingSetext.setextUnderlinesMatched events := by
  unfold HeadingSetext.resolve HeadingSetext.setextUnderlinesMatched
  exact resolveAuxIsSome events.length 0 events { adds := [] } none none
    (fun x hx => by cases hx) (fun x hx => by cases hx)

end Theorems



